import Mathlib

/-!
Verification of the bplot decode-reshape-slice pipeline.

This file gives a shallow embedding of `src/bplot/bplot.py` and proves or
refutes the frozen specification claims about it.

Modelling conventions:
- machine byte buffers are `List Nat` (one entry per byte);
- a decoded scalar is modelled by the byte chunk it was unpacked from
  (`struct.unpack` of IEEE values is abstracted; the claims under study only
  concern counts, shapes and selection, never the numeric value of a float);
- numpy arrays are modelled as strided views (`NDArrayView`): flat data plus
  an offset, a shape and per-axis strides, exactly the information numpy
  keeps for `reshape`, `transpose` and basic indexing;
- fallible steps return `Except BplotError`; the `print`+`exit(1)` paths of
  the script correspond to `.error` results.
-/

/-- Errors surfaced by the script (each corresponds to a `print`+`exit(1)`
path, or to an exception numpy raises that the script does not catch). -/
inductive BplotError where
  /-- the range text is longer than 15 characters -/
  | rangeTooLong
  /-- the range text holds a character outside the fixed charset -/
  | rangeCharset
  /-- the Python eval of the subscript text raised (e.g. a SyntaxError) -/
  | rangeParse
  /-- model artifact: list-literal (fancy-indexing) range texts such as
  `[1,2]` are outside the modelled fragment of the Python evaluator -/
  | unmodelledBrackets
  /-- numpy `reshape` ValueError: cannot reshape array of given size -/
  | shapeMismatch (length : Nat) (shape : List Nat)
  /-- numpy IndexError: index is out of bounds for an axis; carries the
  axis, the offending index and the axis size, as numpy's message does -/
  | indexOutOfRange (axis : Nat) (index : Int) (size : Nat)
  /-- numpy IndexError: too many indices for array -/
  | tooManyIndices
  /-- numpy ValueError: slice step cannot be zero -/
  | zeroStep
  deriving DecidableEq, Repr

/-- The supported dtype tags (keys of the `DTYPE_SIZES` dict). -/
inductive DType where
  | i | I | q | Q | f | d
  deriving DecidableEq, Repr

/-- Byte width of each dtype tag, the `DTYPE_SIZES` table of the script. -/
def DTYPE_SIZES : DType → Nat
  | .i => 4
  | .I => 4
  | .q => 8
  | .Q => 8
  | .f => 4
  | .d => 8

/-- Informational content of the non-fatal truncation warning printed by
`read_binary_data`: the message names the original file size in bytes and
the dtype size, and says trailing bytes are truncated. -/
structure Warning where
  fileSize : Nat
  dtypeSize : Nat
  deriving DecidableEq, Repr

/-- A decoded scalar, identified by the byte chunk it was unpacked from. -/
abbrev Scalar := List Nat

/-- The decoding part of `read_binary_data`: truncate the buffer to a
multiple of the dtype size (warning when bytes are dropped), then unpack
`num_values = len(bin_data) // dtype_size` scalars of `dtype_size` bytes
each.  Mirrors:

    if len(bin_data) % dtype_size != 0:
        print("Warning :: file size (... bytes) is not a multiple of ...")
        bin_data = bin_data[: len(bin_data) - (len(bin_data) % dtype_size)]
    num_values = len(bin_data) // dtype_size
    unpacked_data = struct.unpack(f"{num_values}{dtype}", bin_data)
-/
def decode (buffer : List Nat) (dtype : DType) : Option Warning × List Scalar :=
  let size := DTYPE_SIZES dtype
  let warn : Option Warning :=
    if buffer.length % size ≠ 0 then some ⟨buffer.length, size⟩ else none
  let trimmed := buffer.take (buffer.length - buffer.length % size)
  let num := trimmed.length / size
  (warn, (List.range num).map fun k => (trimmed.drop (k * size)).take size)

theorem dtype_size_pos (dt : DType) : 0 < DTYPE_SIZES dt := by
  cases dt <;> decide

theorem decode_length (buffer : List Nat) (dt : DType) :
    (decode buffer dt).2.length = buffer.length / DTYPE_SIZES dt := by
  have hpos := dtype_size_pos dt
  have hmod := Nat.div_add_mod buffer.length (DTYPE_SIZES dt)
  simp only [decode, List.length_map, List.length_range, List.length_take]
  have hmin : min (buffer.length - buffer.length % DTYPE_SIZES dt) buffer.length
      = DTYPE_SIZES dt * (buffer.length / DTYPE_SIZES dt) := by omega
  rw [hmin, Nat.mul_div_cancel_left _ hpos]

/-- C4: for every supported dtype tag and every byte buffer, `decode` does
not fail and returns exactly `floor(len(buffer) / byteWidth)` scalars; a
(non-fatal) warning is emitted exactly when the buffer length is not a
multiple of the byte width, and the warning states the original length and
the byte width. -/
theorem spec_c4_decode_truncation (dtype : DType) (buffer : List Nat) :
    (decode buffer dtype).2.length = buffer.length / DTYPE_SIZES dtype
    ∧ ((decode buffer dtype).1 ≠ none ↔ buffer.length % DTYPE_SIZES dtype ≠ 0)
    ∧ (∀ w, (decode buffer dtype).1 = some w →
        w.fileSize = buffer.length ∧ w.dtypeSize = DTYPE_SIZES dtype) := by
  refine ⟨decode_length buffer dtype, ?_, ?_⟩
  · simp only [decode]
    split <;> simp_all
  · intro w hw
    simp only [decode] at hw
    split at hw
    · cases hw
      exact ⟨rfl, rfl⟩
    · cases hw

/-- Witness for C4 at the spec's own example: a buffer of length
`byteWidth + 1` (5 bytes, 4-byte dtype) yields one scalar and a warning
naming the original length 5 and width 4. -/
theorem spec_c4_decode_truncation_witness :
    (decode (List.range 5) DType.f).2.length = 5 / 4
    ∧ ((decode (List.range 5) DType.f).1 ≠ none ↔ (5 : Nat) % 4 ≠ 0)
    ∧ ((decode (List.range 5) DType.f).1 = some ⟨5, 4⟩ →
        (Warning.mk 5 4).fileSize = 5 ∧ (Warning.mk 5 4).dtypeSize = 4) :=
  ⟨(spec_c4_decode_truncation DType.f (List.range 5)).1,
   (spec_c4_decode_truncation DType.f (List.range 5)).2.1,
   (spec_c4_decode_truncation DType.f (List.range 5)).2.2 ⟨5, 4⟩⟩

/-- The memory-layout flag of the CLI: `f` = fortran (column-major),
`c` = C (row-major). -/
inductive Layout where
  | f | c
  deriving DecidableEq, Repr

/-- A numpy ndarray basic view: flat data plus offset, shape and per-axis
strides (in elements).  numpy's `reshape`, `transpose` and basic indexing
are all stride manipulations over the same flat data. -/
structure NDArrayView (SC : Type) where
  data : List SC
  offset : Int
  shape : List Nat
  strides : List Int
  deriving DecidableEq, Repr

/-- Row-major (C-order) strides of a shape: the stride of an axis is the
product of all later dimensions.  This is what `np.array(...).reshape(s)`
produces. -/
def rmStrides : List Nat → List Int
  | [] => []
  | _ :: ns => (ns.prod : Int) :: rmStrides ns

/-- Model of `np.array(unpacked_data).reshape(shape)`: succeeds iff the product of
the dimensions equals the number of scalars (else numpy raises
"cannot reshape array of size N into shape S"), and yields the C-order
view of the flat data. -/
def reshapeRM (flat : List SC) (shape : List Nat) :
    Except BplotError (NDArrayView SC) :=
  if shape.prod = flat.length then
    .ok ⟨flat, 0, shape, rmStrides shape⟩
  else
    .error (.shapeMismatch flat.length shape)

/-- Model of `.transpose()` with no arguments: reverse all axes, i.e. reverse the
shape and stride lists of the view. -/
def transposeView (v : NDArrayView SC) : NDArrayView SC :=
  ⟨v.data, v.offset, v.shape.reverse, v.strides.reverse⟩

/-- The reshape step of `read_binary_data`:

    if layout == "f":
        bin_data = np.array(unpacked_data).reshape(shape[::-1]).transpose()
    else:
        bin_data = np.array(unpacked_data).reshape(shape)
-/
def reshapeLayout (flat : List SC) (shape : List Nat) (layout : Layout) :
    Except BplotError (NDArrayView SC) :=
  match layout with
  | .f => (reshapeRM flat shape.reverse).map transposeView
  | .c => reshapeRM flat shape

/-- The function `read_binary_data` on the already-read file contents: decode (with the
truncation warning), then reshape per the layout flag. -/
def read_binary_data (contents : List Nat) (shape : List Nat) (dtype : DType)
    (layout : Layout) :
    Option Warning × Except BplotError (NDArrayView Scalar) :=
  let (w, scalars) := decode contents dtype
  (w, reshapeLayout scalars shape layout)

/-- Sum of stride-index products: the linear position of a multi-index in a
strided view, relative to the view's offset. -/
def dotOffset : List Int → List Nat → Int
  | s :: ss, ix :: ixs => s * (ix : Int) + dotOffset ss ixs
  | _, _ => 0

/-- Reading one element of a view at a multi-index (the semantic observation
function for strided views: offset plus stride-weighted index). -/
def lookup (v : NDArrayView SC) (idx : List Nat) : Option SC :=
  if idx.length = v.shape.length then
    let pos := v.offset + dotOffset v.strides idx
    if 0 ≤ pos then v.data.get? pos.toNat else none
  else none

/-- Column-major (Fortran-order) strides, written directly: the first axis
varies fastest, each later axis strides by the product of the earlier
dimensions. -/
def cmStrides : List Nat → List Int
  | [] => []
  | n :: ns => 1 :: (cmStrides ns).map (· * (n : Int))

/-- Fortran-order linear offset of a multi-index: the first axis varies
fastest (`offset (i :: is) = i + n * offset is`). -/
def cmOffset : List Nat → List Nat → Nat
  | n :: ns, ix :: ixs => ix + n * cmOffset ns ixs
  | _, _ => 0

theorem rmStrides_append_singleton (as : List Nat) (n : Nat) :
    rmStrides (as ++ [n]) = (rmStrides as).map (· * (n : Int)) ++ [1] := by
  induction as with
  | nil => simp [rmStrides]
  | cons a as ih =>
    simp only [List.cons_append, rmStrides, List.append_eq, ih, List.map_cons,
      List.cons.injEq]
    refine ⟨?_, trivial⟩
    rw [List.prod_append, List.prod_singleton]
    push_cast
    ring

theorem cmStrides_eq_reverse_rmStrides (sh : List Nat) :
    (rmStrides sh.reverse).reverse = cmStrides sh := by
  induction sh with
  | nil => rfl
  | cons n ns ih =>
    simp only [List.reverse_cons, rmStrides_append_singleton, cmStrides]
    rw [List.reverse_append]
    simp only [List.reverse_cons, List.reverse_nil, List.nil_append,
      List.singleton_append, List.cons.injEq, true_and]
    rw [← List.map_reverse, ih]

theorem dotOffset_map_mul (ss : List Int) (m : Int) (ixs : List Nat) :
    dotOffset (ss.map (· * m)) ixs = m * dotOffset ss ixs := by
  induction ss generalizing ixs with
  | nil => simp [dotOffset]
  | cons s ss ih =>
    cases ixs with
    | nil => simp [dotOffset]
    | cons ix ixs =>
      simp only [List.map_cons, dotOffset, ih]
      ring

theorem dotOffset_cmStrides (sh : List Nat) (idx : List Nat) :
    dotOffset (cmStrides sh) idx = (cmOffset sh idx : Int) := by
  induction sh generalizing idx with
  | nil => cases idx <;> simp [cmStrides, dotOffset, cmOffset]
  | cons n ns ih =>
    cases idx with
    | nil => simp [cmStrides, dotOffset, cmOffset]
    | cons ix ixs =>
      simp only [cmStrides, dotOffset, dotOffset_map_mul, ih, cmOffset]
      push_cast
      ring

theorem reshapeRM_error_iff (flat : List SC) (shape : List Nat) :
    (∃ e, reshapeRM flat shape = .error e) ↔ shape.prod ≠ flat.length := by
  unfold reshapeRM
  split
  · simp_all
  · simp_all

theorem reshapeRM_error_shape (flat : List SC) (shape : List Nat)
    (e : BplotError) (h : reshapeRM flat shape = .error e) :
    e = .shapeMismatch flat.length shape := by
  unfold reshapeRM at h
  split at h
  · cases h
  · cases h
    rfl
theorem reshapeLayout_f_eq (flat : List SC) (shape : List Nat) :
    reshapeLayout flat shape Layout.f =
      if shape.prod = flat.length then
        .ok (transposeView ⟨flat, 0, shape.reverse, rmStrides shape.reverse⟩)
      else .error (.shapeMismatch flat.length shape.reverse) := by
  simp only [reshapeLayout, reshapeRM, List.prod_reverse]
  split <;> rfl

theorem reshapeLayout_c_eq (flat : List SC) (shape : List Nat) :
    reshapeLayout flat shape Layout.c =
      if shape.prod = flat.length then
        .ok ⟨flat, 0, shape, rmStrides shape⟩
      else .error (.shapeMismatch flat.length shape) := rfl

/-- C6: `reshape` (for either layout) fails, and fails with a shape-mismatch
error, exactly when the product of the shape entries differs from the number
of (post-truncation) scalars; in particular 10 scalars with shape `[3, 4]`
fail. -/
theorem spec_c6_reshape_mismatch (scalars : List Int) (shape : List Nat)
    (layout : Layout) :
    ((∃ n sh, reshapeLayout scalars shape layout = .error (.shapeMismatch n sh))
        ↔ shape.prod ≠ scalars.length)
    ∧ (∀ e, reshapeLayout scalars shape layout = .error e →
        ∃ n sh, e = .shapeMismatch n sh)
    ∧ (∃ e, reshapeLayout (List.replicate 10 (0 : Int)) [3, 4] layout = .error e) := by
  refine ⟨?_, ?_, ?_⟩
  · cases layout
    · rw [reshapeLayout_f_eq]
      split
      · rename_i hcond
        constructor
        · rintro ⟨n, sh, h⟩
          exact Except.noConfusion h
        · intro hne
          exact absurd hcond hne
      · rename_i hcond
        constructor
        · intro _
          exact hcond
        · intro _
          exact ⟨_, _, rfl⟩
    · rw [reshapeLayout_c_eq]
      split
      · rename_i hcond
        constructor
        · rintro ⟨n, sh, h⟩
          exact Except.noConfusion h
        · intro hne
          exact absurd hcond hne
      · rename_i hcond
        constructor
        · intro _
          exact hcond
        · intro _
          exact ⟨_, _, rfl⟩
  · intro e he
    cases layout
    · rw [reshapeLayout_f_eq] at he
      split at he
      · exact Except.noConfusion he
      · injection he with he2
        subst he2
        exact ⟨_, _, rfl⟩
    · rw [reshapeLayout_c_eq] at he
      split at he
      · exact Except.noConfusion he
      · injection he with he2
        subst he2
        exact ⟨_, _, rfl⟩
  · cases layout
    · refine ⟨.shapeMismatch 10 [4, 3], ?_⟩
      rw [reshapeLayout_f_eq]
      rfl
    · refine ⟨.shapeMismatch 10 [3, 4], ?_⟩
      rw [reshapeLayout_c_eq]
      rfl

/-- Witness for C6 at the spec's example: 10 scalars against shape `[3, 4]`
(product 12) fail with a shape-mismatch error. -/
theorem spec_c6_reshape_mismatch_witness :
    ∃ n sh, reshapeLayout (List.replicate 10 (0 : Int)) [3, 4] Layout.c
      = .error (.shapeMismatch n sh) :=
  (spec_c6_reshape_mismatch (List.replicate 10 (0 : Int)) [3, 4] Layout.c).1.mpr
    (by decide)

/-- C10: for a one-dimensional shape the layout flag has no observable
effect: reversing a length-1 dimension list and transposing a rank-1 view
are both identities, so `f` and `c` layouts produce the same view. -/
theorem spec_c10_one_dim_layout_agnostic (flat : List Int) (n : Nat)
    (_h : flat.length = n) :
    reshapeLayout flat [n] Layout.f = reshapeLayout flat [n] Layout.c := by
  rw [reshapeLayout_f_eq, reshapeLayout_c_eq]
  simp [transposeView, rmStrides]

/-- Witness for C10 at a concrete input. -/
theorem spec_c10_one_dim_layout_agnostic_witness :
    reshapeLayout ([5, 6] : List Int) [2] Layout.f
      = reshapeLayout ([5, 6] : List Int) [2] Layout.c :=
  spec_c10_one_dim_layout_agnostic [5, 6] 2 rfl

/-- C3: reshaping under column-major layout is literally reshaping with the
dimension order reversed and then transposing all axes back, and the
resulting view is indexed with the original dimension order while the flat
sequence fills the first axis fastest (Fortran offsets); concretely,
`[1,2,3,4,5,6]` with shape `[2,3]` row-major gives rows `[1,2,3],[4,5,6]`,
and column-major makes the first axis vary fastest. -/
theorem spec_c3_column_major_reshape (flat : List Int) (shape : List Nat)
    (v : NDArrayView Int)
    (hv : reshapeLayout flat shape Layout.f = .ok v) :
    (v = transposeView ⟨flat, 0, shape.reverse, rmStrides shape.reverse⟩
      ∧ ∀ idx : List Nat, List.Forall₂ (· < ·) idx shape →
          lookup v idx = flat.get? (cmOffset shape idx))
    ∧ (reshapeLayout ([1, 2, 3, 4, 5, 6] : List Int) [2, 3] Layout.c
        = .ok ⟨[1, 2, 3, 4, 5, 6], 0, [2, 3], [3, 1]⟩
      ∧ lookup (⟨[1, 2, 3, 4, 5, 6], 0, [2, 3], [3, 1]⟩ : NDArrayView Int) [0, 0] = some 1
      ∧ lookup (⟨[1, 2, 3, 4, 5, 6], 0, [2, 3], [3, 1]⟩ : NDArrayView Int) [0, 1] = some 2
      ∧ lookup (⟨[1, 2, 3, 4, 5, 6], 0, [2, 3], [3, 1]⟩ : NDArrayView Int) [0, 2] = some 3
      ∧ lookup (⟨[1, 2, 3, 4, 5, 6], 0, [2, 3], [3, 1]⟩ : NDArrayView Int) [1, 0] = some 4
      ∧ lookup (⟨[1, 2, 3, 4, 5, 6], 0, [2, 3], [3, 1]⟩ : NDArrayView Int) [1, 1] = some 5
      ∧ lookup (⟨[1, 2, 3, 4, 5, 6], 0, [2, 3], [3, 1]⟩ : NDArrayView Int) [1, 2] = some 6)
    ∧ (reshapeLayout ([1, 2, 3, 4, 5, 6] : List Int) [2, 3] Layout.f
        = .ok ⟨[1, 2, 3, 4, 5, 6], 0, [2, 3], [1, 2]⟩
      ∧ lookup (⟨[1, 2, 3, 4, 5, 6], 0, [2, 3], [1, 2]⟩ : NDArrayView Int) [0, 0] = some 1
      ∧ lookup (⟨[1, 2, 3, 4, 5, 6], 0, [2, 3], [1, 2]⟩ : NDArrayView Int) [1, 0] = some 2
      ∧ lookup (⟨[1, 2, 3, 4, 5, 6], 0, [2, 3], [1, 2]⟩ : NDArrayView Int) [0, 1] = some 3
      ∧ lookup (⟨[1, 2, 3, 4, 5, 6], 0, [2, 3], [1, 2]⟩ : NDArrayView Int) [1, 1] = some 4
      ∧ lookup (⟨[1, 2, 3, 4, 5, 6], 0, [2, 3], [1, 2]⟩ : NDArrayView Int) [0, 2] = some 5
      ∧ lookup (⟨[1, 2, 3, 4, 5, 6], 0, [2, 3], [1, 2]⟩ : NDArrayView Int) [1, 2] = some 6) := by
  refine ⟨?_, by refine ⟨rfl, rfl, rfl, rfl, rfl, rfl, rfl⟩,
    by refine ⟨rfl, rfl, rfl, rfl, rfl, rfl, rfl⟩⟩
  rw [reshapeLayout_f_eq] at hv
  split at hv
  case isFalse => exact Except.noConfusion hv
  case isTrue hcond =>
  injection hv with hv2
  subst hv2
  refine ⟨rfl, ?_⟩
  intro idx hidx
  have hlen : idx.length = shape.length := hidx.length_eq
  unfold lookup transposeView
  simp only [List.reverse_reverse, cmStrides_eq_reverse_rmStrides]
  rw [if_pos hlen, dotOffset_cmStrides, zero_add]
  rw [if_pos (Int.natCast_nonneg _)]
  rw [Int.toNat_natCast]

/-- Witness for C3: at the spec's example the column-major view of
`[1,2,3,4,5,6]` with shape `[2,3]` reads index `[1,0]` at Fortran offset
`cmOffset [2,3] [1,0] = 1`, i.e. the first axis varies fastest. -/
theorem spec_c3_column_major_reshape_witness :
    lookup (⟨[1, 2, 3, 4, 5, 6], 0, [2, 3], [1, 2]⟩ : NDArrayView Int) [1, 0]
      = ([1, 2, 3, 4, 5, 6] : List Int).get? (cmOffset [2, 3] [1, 0]) := by
  have hf2 : List.Forall₂ (· < ·) ([1, 0] : List Nat) [2, 3] :=
    List.Forall₂.cons (by decide) (List.Forall₂.cons (by decide) List.Forall₂.nil)
  exact (spec_c3_column_major_reshape [1, 2, 3, 4, 5, 6] [2, 3]
    ⟨[1, 2, 3, 4, 5, 6], 0, [2, 3], [1, 2]⟩ rfl).1.2 [1, 0] hf2

/-- Numeric value of a run of decimal digit characters (what Python's `int`
computes on a digit string). -/
def digitsToNat (cs : List Char) : Nat :=
  cs.foldl (fun n c => 10 * n + (c.toNat - 48)) 0

/-- Accumulator-passing extraction of the maximal decimal digit runs of a
character list, the semantics of `re.findall(r"(\d+)", text)`; `acc` holds
the digits of the run currently being read, in reverse. -/
def digitRunsAux : List Char → List Char → List (List Char)
  | [], acc => if acc.isEmpty then [] else [acc.reverse]
  | c :: cs, acc =>
    if c.isDigit then digitRunsAux cs (c :: acc)
    else if acc.isEmpty then digitRunsAux cs []
    else acc.reverse :: digitRunsAux cs []

/-- The maximal decimal digit runs of a character list, in order. -/
def digitRuns (cs : List Char) : List (List Char) := digitRunsAux cs []

/-- The shape-parsing line of `main`:
`shape = np.array(list(map(int, re.findall(r"(\d+)", shape))))`. -/
def parse_shape (t : String) : List Nat := (digitRuns t.data).map digitsToNat

/-- Spec-side characterization of "every maximal run of decimal digits, in
left-to-right order": split the text at each non-digit character and keep
the nonempty pieces. -/
def specRuns (cs : List Char) : List (List Char) :=
  (cs.splitOnP (fun c => !c.isDigit)).filter (fun r => !r.isEmpty)

theorem modifyHead_nil_append (l : List (List Char)) :
    l.modifyHead (fun x => [] ++ x) = l := by
  cases l <;> simp [List.modifyHead]

theorem digitRunsAux_eq_splitOnP (cs acc : List Char) :
    digitRunsAux cs acc
      = ((cs.splitOnP (fun c => !c.isDigit)).modifyHead (acc.reverse ++ ·)).filter
          (fun r => !r.isEmpty) := by
  induction cs generalizing acc with
  | nil =>
    simp only [digitRunsAux, List.splitOnP_nil, List.modifyHead, List.append_nil]
    cases acc with
    | nil => rfl
    | cons a as =>
      have hne : (!((a :: as).reverse).isEmpty) = true := by simp
      rw [List.filter_cons, if_pos hne]
      simp
  | cons c cs ih =>
    by_cases hd : c.isDigit
    · rw [List.splitOnP_cons, if_neg (by simp [hd]), List.modifyHead_modifyHead]
      simp only [digitRunsAux]
      rw [if_pos hd, ih (c :: acc)]
      have hfg : (fun x => (c :: acc).reverse ++ x)
          = ((fun x => acc.reverse ++ x) ∘ List.cons c) := by
        funext x
        simp [Function.comp, List.reverse_cons, List.append_assoc]
      rw [hfg]
    · rw [List.splitOnP_cons, if_pos (by simp [hd])]
      simp only [digitRunsAux, List.modifyHead, List.append_nil]
      rw [if_neg hd]
      cases acc with
      | nil =>
        rw [ih []]
        simp only [List.reverse_nil, modifyHead_nil_append]
        rw [List.filter_cons]
        simp
      | cons a as =>
        rw [ih []]
        simp only [List.reverse_nil, modifyHead_nil_append]
        have hne2 : (!((a :: as).reverse).isEmpty) = true := by simp
        rw [List.filter_cons, if_pos hne2]
        simp [List.isEmpty_cons]

theorem digitRuns_eq_specRuns (cs : List Char) : digitRuns cs = specRuns cs := by
  rw [digitRuns, digitRunsAux_eq_splitOnP, specRuns, List.reverse_nil,
    modifyHead_nil_append]

theorem digitRunsAux_ne_nil_of_acc (cs : List Char) :
    ∀ acc : List Char, acc ≠ [] → digitRunsAux cs acc ≠ [] := by
  induction cs with
  | nil =>
    intro acc hacc
    simp only [digitRunsAux]
    rw [if_neg (by simpa [List.isEmpty_iff] using hacc)]
    simp
  | cons c cs ih =>
    intro acc hacc
    simp only [digitRunsAux]
    by_cases hd : c.isDigit
    · rw [if_pos hd]
      exact ih (c :: acc) (by simp)
    · rw [if_neg hd, if_neg (by simpa [List.isEmpty_iff] using hacc)]
      simp

theorem digitRuns_ne_nil_of_digit (cs : List Char)
    (h : ∃ c ∈ cs, c.isDigit = true) : digitRuns cs ≠ [] := by
  rw [digitRuns]
  induction cs with
  | nil => simp at h
  | cons c cs ih =>
    simp only [digitRunsAux]
    by_cases hd : c.isDigit
    · rw [if_pos hd]
      exact digitRunsAux_ne_nil_of_acc cs [c] (by simp)
    · rw [if_neg hd, if_pos List.isEmpty_nil]
      rcases h with ⟨x, hx, hxd⟩
      rcases List.mem_cons.mp hx with h1 | h2
      · exact absurd (h1 ▸ hxd) hd
      · exact ih ⟨x, h2, hxd⟩

theorem digitRuns_nil_of_no_digit (cs : List Char)
    (h : ∀ c ∈ cs, c.isDigit = false) : digitRuns cs = [] := by
  rw [digitRuns]
  induction cs with
  | nil => rfl
  | cons c cs ih =>
    simp only [digitRunsAux]
    rw [if_neg (by simp [h c (List.mem_cons_self c cs)]), if_pos List.isEmpty_nil]
    exact ih (fun x hx => h x (List.mem_cons_of_mem c hx))

/-- C7 counterexample: on text with no digit run, `parse_shape` does not
fail at all; it returns the empty shape vector and the pipeline proceeds to
reshape (which even succeeds when there is exactly one scalar, producing a
0-d array). -/
theorem spec_c7_counterexample :
    parse_shape "no digits here" = []
    ∧ reshapeLayout [(42 : Int)] (parse_shape "no digits here") Layout.c
        = .ok ⟨[42], 0, [], []⟩ :=
  ⟨rfl, rfl⟩

/-- C7 (amended): for shape text with no run of decimal digits, `parse_shape`
returns the empty shape vector rather than failing with a dedicated
empty-shape error; the pipeline then proceeds to reshape, which succeeds iff
there is exactly one scalar (the empty product being 1) and otherwise fails
with the generic shape-mismatch error. -/
theorem spec_c7_empty_shape_no_error (t : String)
    (h : ∀ c ∈ t.data, c.isDigit = false) :
    parse_shape t = []
    ∧ ∀ (scalars : List Int) (layout : Layout),
        (reshapeLayout scalars (parse_shape t) layout = .ok ⟨scalars, 0, [], []⟩
          ↔ scalars.length = 1) := by
  have hps : parse_shape t = [] := by
    rw [parse_shape, digitRuns_nil_of_no_digit t.data h]
    rfl
  refine ⟨hps, ?_⟩
  intro scalars layout
  rw [hps]
  cases layout
  · rw [reshapeLayout_f_eq, List.reverse_nil]
    split
    · rename_i hcond
      rw [List.prod_nil] at hcond
      constructor
      · intro _
        exact hcond.symm
      · intro _
        rfl
    · rename_i hcond
      rw [List.prod_nil] at hcond
      constructor
      · intro hcontra
        exact Except.noConfusion hcontra
      · intro hlen
        rw [hlen] at hcond
        exact absurd rfl hcond
  · rw [reshapeLayout_c_eq]
    split
    · rename_i hcond
      rw [List.prod_nil] at hcond
      constructor
      · intro _
        exact hcond.symm
      · intro _
        rfl
    · rename_i hcond
      rw [List.prod_nil] at hcond
      constructor
      · intro hcontra
        exact Except.noConfusion hcontra
      · intro hlen
        rw [hlen] at hcond
        exact absurd rfl hcond

/-- Witness for C7 (amended) at a concrete no-digit text and one scalar. -/
theorem spec_c7_empty_shape_no_error_witness :
    parse_shape "abc" = []
    ∧ reshapeLayout [(42 : Int)] (parse_shape "abc") Layout.c
        = .ok ⟨[42], 0, [], []⟩ := by
  have h := spec_c7_empty_shape_no_error "abc" (by decide)
  exact ⟨h.1, (h.2 [42] Layout.c).mpr rfl⟩

/-- C8 counterexample: the digit run `"0"` is parsed to the integer `0`,
which is not positive, so the returned entries are not always positive
integers. -/
theorem spec_c8_counterexample :
    parse_shape "0" = [0] ∧ ¬ (∀ x ∈ parse_shape "0", 0 < x) := by
  decide

/-- C8 (amended): for shape text containing at least one digit, `parse_shape`
returns exactly the maximal runs of decimal digits of the text, in
left-to-right order, each interpreted as a non-negative integer (a run of
zeros yields the non-positive entry 0), ignoring all other characters;
`"4, 8"` and `"[4][8]"` both parse to `[4, 8]`. -/
theorem spec_c8_parse_shape_digit_runs (t : String)
    (h : ∃ c ∈ t.data, c.isDigit = true) :
    parse_shape t = (specRuns t.data).map digitsToNat
    ∧ parse_shape t ≠ []
    ∧ parse_shape "4, 8" = [4, 8]
    ∧ parse_shape "[4][8]" = [4, 8] := by
  refine ⟨?_, ?_, rfl, rfl⟩
  · rw [parse_shape, digitRuns_eq_specRuns]
  · rw [parse_shape]
    intro hmap
    exact digitRuns_ne_nil_of_digit t.data h (List.map_eq_nil_iff.mp hmap)

/-- Witness for C8 (amended) at the spec's example text. -/
theorem spec_c8_parse_shape_digit_runs_witness :
    parse_shape "4, 8" = (specRuns "4, 8".data).map digitsToNat
    ∧ parse_shape "4, 8" ≠ [] :=
  ⟨(spec_c8_parse_shape_digit_runs "4, 8" (by decide)).1,
   (spec_c8_parse_shape_digit_runs "4, 8" (by decide)).2.1⟩

deriving instance DecidableEq for Except

/-- A per-axis selector, the result of evaluating `np.s_[...]` on one
comma-separated component: either a single integer index or a Python
`slice(start, stop, step)` object with optional components. -/
inductive Selector where
  | index (i : Int)
  | slice (start stop step : Option Int)
  deriving DecidableEq, Repr

/-- Python `slice.indices(n)` clamping, returning the effective start and
the number of selected elements: bounds are clamped into the axis (negative
bounds count from the end) and never raise. -/
def sliceIndices (n : Nat) (osta osto : Option Int) (step : Int) : Int × Nat :=
  if 0 < step then
    let sta := match osta with
      | none => 0
      | some v => if v < 0 then max (v + n) 0 else min v n
    let sto := match osto with
      | none => (n : Int)
      | some v => if v < 0 then max (v + n) 0 else min v n
    (sta, if sta < sto then ((sto - sta - 1) / step).toNat + 1 else 0)
  else
    let sta := match osta with
      | none => (n : Int) - 1
      | some v => if v < 0 then max (v + n) (-1) else min v ((n : Int) - 1)
    let sto := match osto with
      | none => -1
      | some v => if v < 0 then max (v + n) (-1) else min v ((n : Int) - 1)
    (sta, if sto < sta then ((sta - sto - 1) / (-step)).toNat + 1 else 0)

/-- numpy basic indexing over the axes of a view, selector by selector
(`ax` counts axes for error reporting): a literal index must lie in
`[-n, n)` (negative indices count from the end) and consumes its axis; a
slice is clamped by `sliceIndices` and keeps its axis with a scaled stride;
remaining axes are kept in full.  Returns the offset delta and the shape
and strides of the result. -/
def applyAux (ax : Nat) :
    List Nat → List Int → List Selector →
      Except BplotError (Int × List Nat × List Int)
  | ns, ss, [] => .ok (0, ns, ss)
  | [], _, _ :: _ => .error .tooManyIndices
  | _ :: _, [], _ :: _ => .error .tooManyIndices
  | n :: ns, s :: ss, sel :: sels =>
    match sel with
    | .index i =>
      if i < -(n : Int) ∨ (n : Int) ≤ i then
        .error (.indexOutOfRange ax i n)
      else
        match applyAux (ax + 1) ns ss sels with
        | .error e => .error e
        | .ok (d, sh, st) =>
          .ok ((if i < 0 then i + n else i) * s + d, sh, st)
    | .slice osta osto ostep =>
      let step := ostep.getD 1
      if step = 0 then .error .zeroStep
      else
        let bc := sliceIndices n osta osto step
        match applyAux (ax + 1) ns ss sels with
        | .error e => .error e
        | .ok (d, sh, st) =>
          .ok (bc.1 * s + d, bc.2 :: sh, step * s :: st)

/-- Model of `bin_data[slice_]`: numpy basic indexing of a view by the selector
tuple. -/
def applySel (v : NDArrayView SC) (sels : List Selector) :
    Except BplotError (NDArrayView SC) :=
  match applyAux 0 v.shape v.strides sels with
  | .error e => .error e
  | .ok (d, sh, st) => .ok ⟨v.data, v.offset + d, sh, st⟩

/-- The fixed character set of the `--plot-range` validation:
`"1234567890-[],: "`. -/
def allowedRangeChars : List Char := "1234567890-[],: ".data

/-- The validation in `main`, exactly in source order:

    if len(plot_range) > 15: error
    elif not all(c in "1234567890-[],: " for c in plot_range): error
-/
def validateRange (s : String) : Except BplotError Unit :=
  if s.length > 15 then .error .rangeTooLong
  else if s.data.all (fun c => allowedRangeChars.contains c) then .ok ()
  else .error .rangeCharset

/-- Tokens of the charset-restricted Python expression inside
`np.s_[...]`. -/
inductive Tok where
  | num (n : Nat)
  | dash
  | colon
  | comma
  deriving DecidableEq, Repr

/-- A maximal digit run as a Python decimal literal: decimal literals with
a leading zero and a later nonzero digit (such as `01`) are a Python
SyntaxError; runs of zeros are the literal 0. -/
def runToTok (run : List Char) : Except BplotError Tok :=
  if run.headD '0' = '0' ∧ run.any (fun c => c ≠ '0') then .error .rangeParse
  else .ok (.num (digitsToNat run))

/-- Prepend the pending digit run (held in reverse) to a token stream. -/
def pushRun (run : List Char) (ts : Except BplotError (List Tok)) :
    Except BplotError (List Tok) :=
  match run with
  | [] => ts
  | _ =>
    match runToTok run.reverse, ts with
    | .error e, _ => .error e
    | .ok _, .error e => .error e
    | .ok t, .ok l => .ok (t :: l)

/-- Tokenizer for the charset-restricted expression text: digit runs become
number tokens, `-` `:` `,` become punctuation, spaces separate tokens, and
anything else is a SyntaxError.  `[`/`]` (Python list displays, i.e. numpy
fancy indexing) are mapped to the distinct `unmodelledBrackets` marker: they
are accepted by the real evaluator but lie outside the modelled fragment,
and no claim below depends on them. -/
def tokenizeAux : List Char → List Char → Except BplotError (List Tok)
  | [], run => pushRun run (.ok [])
  | c :: cs, run =>
    if c.isDigit then tokenizeAux cs (c :: run)
    else if c = ' ' then pushRun run (tokenizeAux cs [])
    else if c = '-' then pushRun run ((tokenizeAux cs []).map (Tok.dash :: ·))
    else if c = ':' then pushRun run ((tokenizeAux cs []).map (Tok.colon :: ·))
    else if c = ',' then pushRun run ((tokenizeAux cs []).map (Tok.comma :: ·))
    else .error (if c = '[' ∨ c = ']' then .unmodelledBrackets else .rangeParse)

/-- Parse `-* NUMBER` (a chain of unary minuses applied to a literal);
`none` when the tokens do not start with such a factor. -/
def parseUnary : List Tok → Option (Int × List Tok)
  | .num n :: ts => some ((n : Int), ts)
  | .dash :: ts =>
    match parseUnary ts with
    | some (v, ts2) => some (-v, ts2)
    | none => none
  | _ => none

/-- Parse the left-associative tail `(- unary)*` of a subtraction chain
(the only binary operator expressible in the charset). -/
def parseExprTail : Nat → Int → List Tok → Except BplotError (Int × List Tok)
  | 0, _, _ => .error .rangeParse
  | fuel + 1, acc, .dash :: ts =>
    match parseUnary ts with
    | some (v, ts2) => parseExprTail fuel (acc - v) ts2
    | none => .error .rangeParse
  | _ + 1, acc, ts => .ok (acc, ts)

/-- Parse one arithmetic expression (unary-minus factors combined by
binary minus), the only expressions the validated charset can form. -/
def parseExpr (fuel : Nat) (ts : List Tok) :
    Except BplotError (Int × List Tok) :=
  match parseUnary ts with
  | some (v, ts2) => parseExprTail fuel v ts2
  | none => .error .rangeParse

/-- Parse one optional slice component: absent before `:` `,` or the end of
input, otherwise a full expression. -/
def parsePart (fuel : Nat) (ts : List Tok) :
    Except BplotError (Option Int × List Tok) :=
  match ts with
  | [] => .ok (none, [])
  | .colon :: _ => .ok (none, ts)
  | .comma :: _ => .ok (none, ts)
  | _ =>
    match parseExpr fuel ts with
    | .error e => .error e
    | .ok (v, ts2) => .ok (some v, ts2)

/-- Parse one comma-separated item: a bare expression is an integer index,
`a:b` or `a:b:c` (components optional) is a slice; a fourth colon or an
entirely empty item is a SyntaxError. -/
def parseItem (fuel : Nat) (ts : List Tok) :
    Except BplotError (Selector × List Tok) :=
  match parsePart fuel ts with
  | .error e => .error e
  | .ok (p1, ts1) =>
    match ts1 with
    | .colon :: ts2 =>
      match parsePart fuel ts2 with
      | .error e => .error e
      | .ok (p2, ts3) =>
        match ts3 with
        | .colon :: ts4 =>
          match parsePart fuel ts4 with
          | .error e => .error e
          | .ok (p3, ts5) =>
            match ts5 with
            | .colon :: _ => .error .rangeParse
            | _ => .ok (.slice p1 p2 p3, ts5)
        | _ => .ok (.slice p1 p2 none, ts3)
    | _ =>
      match p1 with
      | some v => .ok (.index v, ts1)
      | none => .error .rangeParse

/-- Parse the comma-separated item list of the subscript (one trailing
comma is allowed, as in Python subscripts). -/
def parseItems : Nat → List Tok → Except BplotError (List Selector)
  | 0, _ => .error .rangeParse
  | fuel + 1, ts =>
    match parseItem (fuel + 1) ts with
    | .error e => .error e
    | .ok (sel, ts1) =>
      match ts1 with
      | [] => .ok [sel]
      | [.comma] => .ok [sel]
      | .comma :: ts2 =>
        match parseItems fuel ts2 with
        | .error e => .error e
        | .ok rest => .ok (sel :: rest)
      | _ => .error .rangeParse

/-- Model of `eval(f"np.s_[{plot_range}]")` on charset-validated text: the
full Python expression grammar restricted to the charset
`0-9 - [ ] , : space` (so: integer literals, unary/binary minus chains,
slices, tuples).  An empty subscript, as produced by the empty range text,
is a Python SyntaxError.  List displays (fancy indexing) are outside the
modelled fragment and yield the distinct `unmodelledBrackets` marker. -/
def evalRange (s : String) : Except BplotError (List Selector) :=
  match tokenizeAux s.data [] with
  | .error e => .error e
  | .ok [] => .error .rangeParse
  | .ok ts => parseItems (ts.length + 1) ts

/-- The range-handling block of `main`, in source order: length check, then
charset check, then `eval` of the numpy slice expression. -/
def rangeStage (s : String) : Except BplotError (List Selector) :=
  match validateRange s with
  | .error e => .error e
  | .ok () => evalRange s

/-- Modelled from the spec (section 4.3): the dedicated parser for the
slicing mini-language that the spec requires, producing per axis either a
single non-negative integer index or a slice of optional non-negative digit
bounds.  Used only to compare the code's evaluator against the spec's
required parser. -/
def specParseRange (s : String) : Except BplotError (List Selector) :=
  let selector : List Char → Except BplotError Selector := fun cs0 =>
    let cs := cs0.filter (fun c => c ≠ ' ')
    let toBound : List Char → Option Int := fun p =>
      if p.isEmpty then none else some ((digitsToNat p : Nat) : Int)
    match cs.splitOn ':' with
    | [p] =>
      if ¬p.isEmpty ∧ p.all Char.isDigit then .ok (.index (digitsToNat p))
      else .error .rangeParse
    | [p, q] =>
      if p.all Char.isDigit ∧ q.all Char.isDigit then
        .ok (.slice (toBound p) (toBound q) none)
      else .error .rangeParse
    | [p, q, r] =>
      if p.all Char.isDigit ∧ q.all Char.isDigit ∧ r.all Char.isDigit then
        .ok (.slice (toBound p) (toBound q) (toBound r))
      else .error .rangeParse
    | _ => .error .rangeParse
  (s.data.splitOn ',').mapM selector

/-- The whole pipeline of `main` on the file contents (rendering excluded):
parse the shape text, validate and evaluate the range text, decode and
reshape the bytes, then index the array with the evaluated selectors. -/
def mainPipeline (contents : List Nat) (shapeText : String) (dtype : DType)
    (layout : Layout) (rangeText : String) :
    Option Warning × Except BplotError (NDArrayView Scalar) :=
  let shape := parse_shape shapeText
  match rangeStage rangeText with
  | .error e => (none, .error e)
  | .ok sels =>
    let (w, arr) := read_binary_data contents shape dtype layout
    match arr with
    | .error e => (w, .error e)
    | .ok v => (w, applySel v sels)

/-- C1 (the code contradicts it): with `plot-range` equal to the empty
string — the CLI default, which the spec says selects the whole array — the
produced subscript text `np.s_[]` is a Python SyntaxError, so `main` prints
the range parse error and exits 1 before reading any file: the pipeline
never reaches the renderer, for every file content, shape, dtype and
layout. -/
theorem spec_c1_empty_range_rejected (contents : List Nat)
    (shapeText : String) (dtype : DType) (layout : Layout) :
    mainPipeline contents shapeText dtype layout ""
      = (none, .error .rangeParse) := rfl

/-- C2 counterexample: the charset-valid text `"5--3"` is not in the
slicing mini-language (the spec's dedicated parser rejects it), yet the
code's range stage accepts it and evaluates the arithmetic `5 - (-3)`,
producing the single index 8 — the text is interpreted by a general-purpose
expression evaluator, not by a dedicated parser. -/
theorem spec_c2_counterexample :
    validateRange "5--3" = .ok ()
    ∧ rangeStage "5--3" = .ok [.index 8]
    ∧ specParseRange "5--3" = .error .rangeParse := by
  decide

/-- C2 (amended): the length and charset validation does fully precede the
interpretation of the range text (a validation failure short-circuits the
stage), but after validation the text is handed to a general-purpose
expression evaluator (`eval` of `np.s_[...]`) rather than a dedicated
mini-language parser: arithmetic such as `"5--3"` is evaluated to the index
8 where the spec's parser fails with a parse error. -/
theorem spec_c2_general_evaluator_after_validation :
    (∀ (s : String) (e : BplotError),
        validateRange s = .error e → rangeStage s = .error e)
    ∧ rangeStage "5--3" = .ok [.index 8]
    ∧ specParseRange "5--3" = .error .rangeParse := by
  refine ⟨?_, by decide, by decide⟩
  intro s e h
  unfold rangeStage
  rw [h]

/-- Witness for C2 (amended): a 16-character range fails validation, and
the range stage propagates exactly that validation error. -/
theorem spec_c2_general_evaluator_after_validation_witness :
    rangeStage "1111111111111111" = .error .rangeTooLong :=
  spec_c2_general_evaluator_after_validation.1 "1111111111111111" .rangeTooLong
    (by decide)

theorem sign_digit_chars_allowed (c : Char) (hc : c ∈ ("-0123456789".data)) :
    allowedRangeChars.contains c = true := by
  fin_cases hc <;> decide

/-- C9: a plot-range text made of `-` and digits (such as a negative
literal index `-k`) passes the length and charset validation, and a
negative literal index `-k` with `1 ≤ k ≤ n` does not fail when applied to
an axis of size `n`: numpy normalizes it to `n - k`, selecting the k-th
element counting from the end. -/
theorem spec_c9_negative_index_selects_from_end :
    (∀ s : String, s.length ≤ 15 → (∀ c ∈ s.data, c ∈ ("-0123456789".data)) →
      validateRange s = .ok ())
    ∧ (∀ (flat : List Int) (n k : Nat), 1 ≤ k → k ≤ n → flat.length = n →
        reshapeLayout flat [n] Layout.c = .ok ⟨flat, 0, [n], [1]⟩
        ∧ applySel (⟨flat, 0, [n], [1]⟩ : NDArrayView Int) [.index (-(k : Int))]
            = .ok ⟨flat, (n : Int) - (k : Int), [], []⟩
        ∧ lookup (⟨flat, (n : Int) - (k : Int), [], []⟩ : NDArrayView Int) []
            = flat.get? (n - k)) := by
  constructor
  · intro s hlen hchars
    unfold validateRange
    rw [if_neg (by omega), if_pos]
    rw [List.all_eq_true]
    intro c hc
    exact sign_digit_chars_allowed c (hchars c hc)
  · intro flat n k hk1 hk2 hlen
    have hdot : dotOffset ([] : List Int) ([] : List Nat) = 0 := rfl
    refine ⟨?_, ?_, ?_⟩
    · rw [reshapeLayout_c_eq, if_pos (by simp [hlen])]
      rfl
    · have happ : applyAux 0 [n] [1] [Selector.index (-(k : Int))]
          = .ok ((-(k : Int) + n) * 1 + 0, [], []) := by
        simp only [applyAux]
        rw [if_neg (by omega : ¬(-(k : Int) < -(n : Int) ∨ (n : Int) ≤ -(k : Int)))]
        rw [if_pos (by omega : -(k : Int) < 0)]
      unfold applySel
      dsimp only
      rw [happ]
      have harith : (0 : Int) + ((-(k : Int) + n) * 1 + 0) = (n : Int) - (k : Int) := by
        ring
      dsimp only
      rw [harith]
    · unfold lookup
      dsimp only
      rw [if_pos rfl, hdot]
      rw [if_pos (by omega : (0 : Int) ≤ (n : Int) - (k : Int) + 0)]
      congr 1
      omega

/-- Witness for C9: the range text `"-1"` passes validation and evaluates
to the single index -1; the negative index -2 on an axis of size 3 selects
offset 1, whose element is the second-from-last value 20. -/
theorem spec_c9_negative_index_selects_from_end_witness :
    validateRange "-1" = .ok ()
    ∧ rangeStage "-1" = .ok [.index (-1)]
    ∧ applySel (⟨[10, 20, 30], 0, [3], [1]⟩ : NDArrayView Int)
        [.index (-((2 : Nat) : Int))] = .ok ⟨[10, 20, 30], (3 : Int) - 2, [], []⟩
    ∧ lookup (⟨[10, 20, 30], (3 : Int) - 2, [], []⟩ : NDArrayView Int) []
        = [(10 : Int), 20, 30].get? (3 - 2) :=
  ⟨spec_c9_negative_index_selects_from_end.1 "-1" (by decide) (by decide),
   by decide,
   (spec_c9_negative_index_selects_from_end.2 [10, 20, 30] 3 2
      (by decide) (by decide) rfl).2.1,
   (spec_c9_negative_index_selects_from_end.2 [10, 20, 30] 3 2
      (by decide) (by decide) rfl).2.2⟩

/-- A selector whose effective slice step (Python defaults a missing step
to 1) is nonzero; literal indices qualify trivially.  Zero-step slices are
the one selector kind numpy rejects with a different (ValueError) failure,
orthogonal to index bounds. -/
def selNonzeroStep : Selector → Bool
  | .index _ => true
  | .slice _ _ st => st.getD 1 != 0

/-- Is the selector a slice? -/
def selIsSlice : Selector → Bool
  | .index _ => false
  | .slice _ _ _ => true

/-- A literal index is outside numpy's admissible window for an axis of
size `n` when it falls outside `[-n, n)`. -/
def intOOB (i : Int) (n : Nat) : Prop := i < -(n : Int) ∨ (n : Int) ≤ i

instance (i : Int) (n : Nat) : Decidable (intOOB i n) := by
  unfold intOOB
  infer_instance

theorem applyAux_spec (sels : List Selector) :
    ∀ (ns : List Nat) (ss : List Int) (ax : Nat),
      sels.length ≤ ns.length → ns.length = ss.length →
      (∀ sel ∈ sels, selNonzeroStep sel = true) →
      (∀ e, applyAux ax ns ss sels = .error e →
        ∃ j i, e = .indexOutOfRange (ax + j) i (ns.getD j 0)
          ∧ sels[j]? = some (.index i) ∧ intOOB i (ns.getD j 0))
      ∧ ((∃ e, applyAux ax ns ss sels = .error e)
          ↔ ∃ j i, sels[j]? = some (.index i) ∧ intOOB i (ns.getD j 0)) := by
  induction sels with
  | nil =>
    intro ns ss ax h1 h2 h3
    refine ⟨?_, ?_, ?_⟩
    · intro e he
      simp only [applyAux] at he
      exact Except.noConfusion he
    · rintro ⟨e, he⟩
      simp only [applyAux] at he
      exact Except.noConfusion he
    · rintro ⟨j, i, hget, _⟩
      simp at hget
  | cons sel sels ih =>
    intro ns ss ax h1 h2 h3
    cases ns with
    | nil => simp at h1
    | cons n ns2 =>
    cases ss with
    | nil => simp at h2
    | cons s ss2 =>
    have h1' : sels.length ≤ ns2.length := by
      simp only [List.length_cons] at h1
      omega
    have h2' : ns2.length = ss2.length := by
      simp only [List.length_cons] at h2
      omega
    have h3' : ∀ x ∈ sels, selNonzeroStep x = true :=
      fun x hx => h3 x (List.mem_cons_of_mem _ hx)
    have hrec := ih ns2 ss2 (ax + 1) h1' h2' h3'
    cases sel with
    | index i =>
      by_cases hoob : i < -(n : Int) ∨ (n : Int) ≤ i
      · have happ : applyAux ax (n :: ns2) (s :: ss2) (.index i :: sels)
            = .error (.indexOutOfRange ax i n) := by
          simp only [applyAux]
          rw [if_pos hoob]
        refine ⟨?_, ?_, ?_⟩
        · intro e he
          rw [happ] at he
          injection he with he2
          refine ⟨0, i, ?_, by simp, ?_⟩
          · rw [← he2]
            simp
          · simpa [intOOB] using hoob
        · intro _
          exact ⟨0, i, by simp, by simpa [intOOB] using hoob⟩
        · intro _
          exact ⟨_, happ⟩
      · rcases hres : applyAux (ax + 1) ns2 ss2 sels with e0 | ok0
        · have happ : applyAux ax (n :: ns2) (s :: ss2) (.index i :: sels)
              = .error e0 := by
            simp only [applyAux]
            rw [if_neg hoob, hres]
          obtain ⟨j, i2, heq, hget, hoob2⟩ := hrec.1 e0 hres
          refine ⟨?_, ?_, ?_⟩
          · intro e he
            rw [happ] at he
            injection he with he2
            refine ⟨j + 1, i2, ?_, ?_, ?_⟩
            · rw [← he2, heq]
              have hax : ax + 1 + j = ax + (j + 1) := by omega
              rw [hax, List.getD_cons_succ]
            · rw [List.getElem?_cons_succ]
              exact hget
            · rw [List.getD_cons_succ]
              exact hoob2
          · intro _
            refine ⟨j + 1, i2, ?_, ?_⟩
            · rw [List.getElem?_cons_succ]
              exact hget
            · rw [List.getD_cons_succ]
              exact hoob2
          · intro _
            exact ⟨e0, happ⟩
        · obtain ⟨d, sh, st⟩ := ok0
          have hok : applyAux ax (n :: ns2) (s :: ss2) (.index i :: sels)
              = .ok ((if i < 0 then i + n else i) * s + d, sh, st) := by
            simp only [applyAux]
            rw [if_neg hoob, hres]
          refine ⟨?_, ?_, ?_⟩
          · intro e he
            rw [hok] at he
            exact Except.noConfusion he
          · rintro ⟨e, he⟩
            rw [hok] at he
            exact Except.noConfusion he
          · rintro ⟨j, i2, hget, hoob2⟩
            cases j with
            | zero =>
              rw [List.getElem?_cons_zero] at hget
              injection hget with hget2
              injection hget2 with hget3
              rw [List.getD_cons_zero] at hoob2
              rw [← hget3] at hoob2
              exact absurd hoob2 hoob
            | succ j =>
              rw [List.getElem?_cons_succ] at hget
              rw [List.getD_cons_succ] at hoob2
              obtain ⟨e0, he0⟩ := hrec.2.mpr ⟨j, i2, hget, hoob2⟩
              rw [hres] at he0
              exact Except.noConfusion he0
    | slice osta osto ostep =>
      have hstep : ¬ ostep.getD 1 = 0 := by
        have := h3 (.slice osta osto ostep) (List.mem_cons_self _ _)
        simpa [selNonzeroStep] using this
      rcases hres : applyAux (ax + 1) ns2 ss2 sels with e0 | ok0
      · have happ : applyAux ax (n :: ns2) (s :: ss2) (.slice osta osto ostep :: sels)
            = .error e0 := by
          simp only [applyAux]
          rw [if_neg hstep, hres]
        obtain ⟨j, i2, heq, hget, hoob2⟩ := hrec.1 e0 hres
        refine ⟨?_, ?_, ?_⟩
        · intro e he
          rw [happ] at he
          injection he with he2
          refine ⟨j + 1, i2, ?_, ?_, ?_⟩
          · rw [← he2, heq]
            have hax : ax + 1 + j = ax + (j + 1) := by omega
            rw [hax, List.getD_cons_succ]
          · rw [List.getElem?_cons_succ]
            exact hget
          · rw [List.getD_cons_succ]
            exact hoob2
        · intro _
          refine ⟨j + 1, i2, ?_, ?_⟩
          · rw [List.getElem?_cons_succ]
            exact hget
          · rw [List.getD_cons_succ]
            exact hoob2
        · intro _
          exact ⟨e0, happ⟩
      · obtain ⟨d, sh, st⟩ := ok0
        have hok : applyAux ax (n :: ns2) (s :: ss2) (.slice osta osto ostep :: sels)
            = .ok ((sliceIndices n osta osto (ostep.getD 1)).1 * s + d,
                (sliceIndices n osta osto (ostep.getD 1)).2 :: sh,
                ostep.getD 1 * s :: st) := by
          simp only [applyAux]
          rw [if_neg hstep, hres]
        refine ⟨?_, ?_, ?_⟩
        · intro e he
          rw [hok] at he
          exact Except.noConfusion he
        · rintro ⟨e, he⟩
          rw [hok] at he
          exact Except.noConfusion he
        · rintro ⟨j, i2, hget, hoob2⟩
          cases j with
          | zero =>
            rw [List.getElem?_cons_zero] at hget
            exact Option.noConfusion hget (fun h => Selector.noConfusion h)
          | succ j =>
            rw [List.getElem?_cons_succ] at hget
            rw [List.getD_cons_succ] at hoob2
            obtain ⟨e0, he0⟩ := hrec.2.mpr ⟨j, i2, hget, hoob2⟩
            rw [hres] at he0
            exact Except.noConfusion he0

/-- C5 (amended): `apply` fails exactly when some literal index selector
lies outside numpy's admissible window `[-dimensionSize, dimensionSize)`
for its axis — not outside `[0, dimensionSize)` as originally claimed,
since negative indices are admitted and count from the end; every failure
is an index-out-of-range error identifying the axis, the offending value
and the axis size, and slice selectors (clamped by `sliceIndices`) never
fail. -/
theorem spec_c5_index_out_of_range (v : NDArrayView Int) (sels : List Selector)
    (hrank : sels.length ≤ v.shape.length)
    (hst : v.shape.length = v.strides.length)
    (hsteps : ∀ sel ∈ sels, selNonzeroStep sel = true) :
    ((∃ e, applySel v sels = .error e)
        ↔ ∃ j i, sels[j]? = some (.index i) ∧ intOOB i (v.shape.getD j 0))
    ∧ (∀ e, applySel v sels = .error e →
        ∃ j i, e = .indexOutOfRange j i (v.shape.getD j 0)
          ∧ sels[j]? = some (.index i) ∧ intOOB i (v.shape.getD j 0))
    ∧ ((∀ sel ∈ sels, selIsSlice sel = true) → ∃ w, applySel v sels = .ok w) := by
  have h := applyAux_spec sels v.shape v.strides 0 hrank hst hsteps
  have herr : ∀ e, applySel v sels = .error e
      ↔ applyAux 0 v.shape v.strides sels = .error e := by
    intro e
    unfold applySel
    rcases hres : applyAux 0 v.shape v.strides sels with e0 | ok0
    · simp
    · obtain ⟨d, sh, st⟩ := ok0
      simp
  refine ⟨?_, ?_, ?_⟩
  · constructor
    · rintro ⟨e, he⟩
      exact h.2.mp ⟨e, (herr e).mp he⟩
    · intro hx
      obtain ⟨e, he⟩ := h.2.mpr hx
      exact ⟨e, (herr e).mpr he⟩
  · intro e he
    obtain ⟨j, i, heq, hget, hoob⟩ := h.1 e ((herr e).mp he)
    refine ⟨j, i, ?_, hget, hoob⟩
    rw [heq, Nat.zero_add]
  · intro hslices
    rcases hres2 : applySel v sels with e | w
    · exfalso
      obtain ⟨j, i, hget, _⟩ := h.2.mp ⟨e, (herr e).mp hres2⟩
      have hmem : Selector.index i ∈ sels := List.getElem?_mem hget
      have := hslices (Selector.index i) hmem
      simp [selIsSlice] at this
    · exact ⟨w, rfl⟩

/-- C5 counterexample: the literal index -1 lies outside
`[0, dimensionSize)` for an axis of size 4, yet `apply` does not fail — it
selects the last element (offset 3) — so "fails exactly when a literal
index is outside [0, dimensionSize)" is false on the code. -/
theorem spec_c5_counterexample :
    applySel (⟨[10, 20, 30, 40], 0, [4], [1]⟩ : NDArrayView Int) [.index (-1)]
      = .ok ⟨[10, 20, 30, 40], 3, [], []⟩
    ∧ ¬ (0 ≤ (-1 : Int) ∧ (-1 : Int) < 4) := by
  decide

/-- Witness for C5 (amended) at the spec's examples: the index 5 against an
axis of size 4 fails with the error naming axis 0, value 5 and size 4,
while the slice `2:100` clamps to exactly the view of `2:4` without
failing. -/
theorem spec_c5_index_out_of_range_witness :
    (∃ e, applySel (⟨[10, 20, 30, 40], 0, [4], [1]⟩ : NDArrayView Int)
        [.index 5] = .error e)
    ∧ applySel (⟨[10, 20, 30, 40], 0, [4], [1]⟩ : NDArrayView Int) [.index 5]
        = .error (.indexOutOfRange 0 5 4)
    ∧ applySel (⟨[10, 20, 30, 40], 0, [4], [1]⟩ : NDArrayView Int)
        [.slice (some 2) (some 100) none]
      = applySel (⟨[10, 20, 30, 40], 0, [4], [1]⟩ : NDArrayView Int)
        [.slice (some 2) (some 4) none] := by
  refine ⟨?_, by decide, by decide⟩
  exact (spec_c5_index_out_of_range ⟨[10, 20, 30, 40], 0, [4], [1]⟩
    [.index 5] (by decide) (by decide) (by decide)).1.mpr
    ⟨0, 5, by decide, by decide⟩
